import Mathlib

/-!
Verification of the Bayesian-Knowledge-Tracing (BKT) adaptive-learning core.

The development shallowly embeds the algorithmic core of the repository:

* `BKTModel.update_mastery` (Backend/backend/src/bkt_model.py, `update_mastery`):
  the two-stage Bayesian mastery update with difficulty-adjusted parameters;
* `select_next_question` (same file): the layered question-selection strategy
  (weak-skill targeting, exploration balancing, random fallback);
* `select_assessment_questions` (Backend/backend/src/routes/assessment.py):
  the balanced assessment-set builder.

Modelling conventions:
* Python floats are modelled as exact rationals (`ℚ`); the claims under
  verification are statements about the real-number semantics of the formulas.
* Python dicts that are only iterated/filtered are modelled as association
  lists in insertion order (matching CPython's ordered dicts).
* `random.choice(lst)` is modelled by an explicit draw `d : ℕ` selecting the
  element at index `d % lst.length`; quantifying over `d` quantifies over all
  possible draws.  `random.shuffle` is modelled by `randPerm`, a draw-indexed
  selection shuffle that realises exactly the permutations of its input.
-/

namespace BKT

/-- The BKT model parameters, the four constructor fields of `BKTModel`
(bkt_model.py, `__init__`). -/
structure BKTModel where
  p_init : ℚ
  p_learn : ℚ
  p_slip : ℚ
  p_guess : ℚ
deriving DecidableEq

/-- The default constructor arguments of `BKTModel.__init__`:
`p_init=0.3, p_learn=0.2, p_slip=0.1, p_guess=0.25`. -/
def defaultModel : BKTModel :=
  { p_init := 0.3, p_learn := 0.2, p_slip := 0.1, p_guess := 0.25 }

/-- The difficulty-adjusted slip probability computed at the top of
`update_mastery`.  `none` models `question_difficulty=None`; a `some` value
that is not one of the three adjusted labels (including the falsy `""` and
`"medium"`) leaves the base value unchanged, exactly as the Python
`if`/`elif` chain does. -/
def adjusted_p_slip (m : BKTModel) (question_difficulty : Option String) : ℚ :=
  match question_difficulty with
  | some "hard" => min (m.p_slip * 1.5) 0.2
  | some "easy" => max (m.p_slip * 0.7) 0.05
  | some "very_easy" => max (m.p_slip * 0.5) 0.03
  | _ => m.p_slip

/-- The difficulty-adjusted learning probability computed at the top of
`update_mastery` (same branch structure as `adjusted_p_slip`). -/
def adjusted_p_learn (m : BKTModel) (question_difficulty : Option String) : ℚ :=
  match question_difficulty with
  | some "hard" => min (m.p_learn * 1.2) 0.3
  | some "easy" => max (m.p_learn * 0.8) 0.1
  | some "very_easy" => max (m.p_learn * 0.6) 0.05
  | _ => m.p_learn

/-- The Bayes numerator of `update_mastery`: `current*(1-p_slip)` on a correct
answer, `current*p_slip` on an incorrect one (adjusted slip). -/
def bayesNumerator (m : BKTModel) (current_mastery : ℚ) (is_correct : Bool)
    (question_difficulty : Option String) : ℚ :=
  if is_correct then current_mastery * (1 - adjusted_p_slip m question_difficulty)
  else current_mastery * adjusted_p_slip m question_difficulty

/-- The Bayes denominator of `update_mastery`:
`current*(1-p_slip) + (1-current)*p_guess` on a correct answer,
`current*p_slip + (1-current)*(1-p_guess)` on an incorrect one. -/
def bayesDenominator (m : BKTModel) (current_mastery : ℚ) (is_correct : Bool)
    (question_difficulty : Option String) : ℚ :=
  if is_correct then
    current_mastery * (1 - adjusted_p_slip m question_difficulty) +
      (1 - current_mastery) * m.p_guess
  else
    current_mastery * adjusted_p_slip m question_difficulty +
      (1 - current_mastery) * (1 - m.p_guess)

/-- `BKTModel.update_mastery` (bkt_model.py lines 175-230): difficulty
adjustment, Bayes posterior with divide-by-zero fallback to
`current_mastery`, learning transition, and final clamp to `[0,1]`. -/
def update_mastery (m : BKTModel) (current_mastery : ℚ) (is_correct : Bool)
    (question_difficulty : Option String) : ℚ :=
  let den := bayesDenominator m current_mastery is_correct question_difficulty
  let p_known_given_response :=
    if 0 < den then bayesNumerator m current_mastery is_correct question_difficulty / den
    else current_mastery
  let new_mastery :=
    p_known_given_response +
      (1 - p_known_given_response) * adjusted_p_learn m question_difficulty
  min (max new_mastery 0) 1

/-- The spec's description of the update (spec.md §4.1), written from the
spec's own words for the refinement comparison of claim C1: adjusted
parameters, Bayes posterior (assuming a positive denominator), learning
transition, clamp. -/
def specUpdateMastery (m : BKTModel) (current : ℚ) (is_correct : Bool)
    (difficulty : Option String) : ℚ :=
  let pSlipAdj : ℚ :=
    match difficulty with
    | some "hard" => min (m.p_slip * 1.5) 0.2
    | some "easy" => max (m.p_slip * 0.7) 0.05
    | some "very_easy" => max (m.p_slip * 0.5) 0.03
    | _ => m.p_slip
  let pLearnAdj : ℚ :=
    match difficulty with
    | some "hard" => min (m.p_learn * 1.2) 0.3
    | some "easy" => max (m.p_learn * 0.8) 0.1
    | some "very_easy" => max (m.p_learn * 0.6) 0.05
    | _ => m.p_learn
  let posterior : ℚ :=
    if is_correct then
      current * (1 - pSlipAdj) / (current * (1 - pSlipAdj) + (1 - current) * m.p_guess)
    else
      current * pSlipAdj / (current * pSlipAdj + (1 - current) * (1 - m.p_guess))
  min (max (posterior + (1 - posterior) * pLearnAdj) 0) 1

/-- Closed form of `update_mastery` when the Bayes denominator is positive. -/
theorem update_mastery_of_pos_den (m : BKTModel) (p : ℚ) (c : Bool)
    (qd : Option String) (h : 0 < bayesDenominator m p c qd) :
    update_mastery m p c qd =
      min (max (bayesNumerator m p c qd / bayesDenominator m p c qd +
        (1 - bayesNumerator m p c qd / bayesDenominator m p c qd) *
          adjusted_p_learn m qd) 0) 1 := by
  unfold update_mastery
  dsimp only []
  rw [if_pos h]

/-- Closed form of `update_mastery` when the Bayes denominator is not
positive: the posterior falls back to `current_mastery`, and the learning
transition and clamp still apply. -/
theorem update_mastery_of_nonpos_den (m : BKTModel) (p : ℚ) (c : Bool)
    (qd : Option String) (h : ¬ 0 < bayesDenominator m p c qd) :
    update_mastery m p c qd =
      min (max (p + (1 - p) * adjusted_p_learn m qd) 0) 1 := by
  unfold update_mastery
  dsimp only []
  rw [if_neg h]

/-- A model with `p_guess = 0` (a parameter extreme the spec's divide-by-zero
guard is about); the other parameters keep their defaults. -/
def zeroGuessModel : BKTModel :=
  { p_init := 0.3, p_learn := 0.2, p_slip := 0.1, p_guess := 0 }

/-- C1: `update_mastery` implements the specified two-stage Bayesian filter —
for every mastery in `[0,1]`, every correctness flag and every difficulty in
`{very_easy, easy, medium, hard, absent}`, whenever the Bayes denominator is
positive the result agrees with the spec's formula: difficulty-adjusted
`p_slip`/`p_learn` (with the exact clamp constants, `p_guess` unadjusted),
Bayes posterior, learning transition, clamp to `[0,1]`. -/
theorem update_mastery_matches_spec (m : BKTModel) (p : ℚ) (c : Bool)
    (qd : Option String) (hp0 : 0 ≤ p) (hp1 : p ≤ 1)
    (hqd : qd ∈ ([none, some "very_easy", some "easy", some "medium",
      some "hard"] : List (Option String)))
    (hden : 0 < bayesDenominator m p c qd) :
    update_mastery m p c qd = specUpdateMastery m p c qd := by
  rw [update_mastery_of_pos_den m p c qd hden]
  fin_cases hqd <;> cases c <;> rfl

/-- Witness for C1 at a concrete input: default model, mastery `1/2`, a
correct answer on a `hard` question. -/
theorem update_mastery_matches_spec_witness :
    (0:ℚ) ≤ 1/2 ∧ (1/2:ℚ) ≤ 1 ∧
    (some "hard") ∈ ([none, some "very_easy", some "easy", some "medium",
      some "hard"] : List (Option String)) ∧
    0 < bayesDenominator defaultModel (1/2) true (some "hard") ∧
    update_mastery defaultModel (1/2) true (some "hard") =
      specUpdateMastery defaultModel (1/2) true (some "hard") :=
  ⟨by norm_num, by norm_num, by simp,
   by norm_num [bayesDenominator, adjusted_p_slip, defaultModel],
   update_mastery_matches_spec defaultModel (1/2) true (some "hard")
     (by norm_num) (by norm_num) (by simp)
     (by norm_num [bayesDenominator, adjusted_p_slip, defaultModel])⟩

/-- C2: range invariant — for every mastery in `[0,1]`, every correctness
flag and every difficulty (including absent), the result of `update_mastery`
lies in `[0,1]`. -/
theorem update_mastery_in_unit_interval (m : BKTModel) (p : ℚ) (c : Bool)
    (qd : Option String) (hp0 : 0 ≤ p) (hp1 : p ≤ 1) :
    0 ≤ update_mastery m p c qd ∧ update_mastery m p c qd ≤ 1 := by
  unfold update_mastery
  exact ⟨le_min (le_max_right _ _) zero_le_one, min_le_right _ _⟩

/-- Witness for C2 at a concrete input. -/
theorem update_mastery_in_unit_interval_witness :
    (0:ℚ) ≤ 1/2 ∧ (1/2:ℚ) ≤ 1 ∧
    (0 ≤ update_mastery defaultModel (1/2) true none ∧
      update_mastery defaultModel (1/2) true none ≤ 1) :=
  ⟨by norm_num, by norm_num,
   update_mastery_in_unit_interval defaultModel (1/2) true none
     (by norm_num) (by norm_num)⟩

/-- Counterexample to C3 as stated: with `p_guess = 0`, mastery `0` and a
correct answer the Bayes denominator is exactly zero, yet the call is not a
no-op — it returns `p_learn = 0.2`, not the input mastery `0`, because the
learning transition still applies to the fallen-back posterior. -/
theorem update_mastery_zero_den_not_noop :
    bayesDenominator zeroGuessModel 0 true none = 0 ∧
    update_mastery zeroGuessModel 0 true none ≠ 0 := by
  constructor
  · norm_num [bayesDenominator, adjusted_p_slip, zeroGuessModel]
  · norm_num [update_mastery, bayesDenominator, bayesNumerator,
      adjusted_p_slip, adjusted_p_learn, zeroGuessModel]

/-- C3 (amended): whenever the Bayes denominator is exactly zero, only the
posterior falls back to the unmodified input mastery; the learning
transition and the clamp still apply, so the call returns
`clamp(current + (1-current)·p_learn_adjusted, 0, 1)`. -/
theorem update_mastery_zero_den_learning_still_applies (m : BKTModel) (p : ℚ)
    (c : Bool) (qd : Option String)
    (h : bayesDenominator m p c qd = 0) :
    update_mastery m p c qd =
      min (max (p + (1 - p) * adjusted_p_learn m qd) 0) 1 :=
  update_mastery_of_nonpos_den m p c qd (by rw [h]; exact lt_irrefl 0)

/-- Witness for the amended C3 at the concrete zero-denominator input. -/
theorem update_mastery_zero_den_learning_still_applies_witness :
    bayesDenominator zeroGuessModel 0 true none = 0 ∧
    update_mastery zeroGuessModel 0 true none =
      min (max ((0:ℚ) + (1 - 0) * adjusted_p_learn zeroGuessModel none) 0) 1 :=
  ⟨by norm_num [bayesDenominator, adjusted_p_slip, zeroGuessModel],
   update_mastery_zero_den_learning_still_applies zeroGuessModel 0 true none
     (by norm_num [bayesDenominator, adjusted_p_slip, zeroGuessModel])⟩

/-- Counterexample to C4 as stated: at the boundary mastery `p = 1` (which
lies in `[0,1]`), with the default parameters (whose slip+guess = 0.35 < 1)
and no difficulty, a correct and an incorrect answer produce the same output,
so the strict inequality fails. -/
theorem update_strict_order_fails_at_one :
    adjusted_p_slip defaultModel none + defaultModel.p_guess < 1 ∧
    ¬ update_mastery defaultModel 1 true none >
        update_mastery defaultModel 1 false none := by
  constructor
  · norm_num [adjusted_p_slip, defaultModel]
  · norm_num [update_mastery, bayesDenominator, bayesNumerator,
      adjusted_p_slip, adjusted_p_learn, defaultModel]

/-- C4 (amended): strict evidence ordering on the open interval — for every
`p` with `0 < p < 1` and every difficulty, if the adjusted parameters are
nonnegative with `p_slip + p_guess < 1` and the adjusted `p_learn` lies in
`[0,1)`, then a correct answer yields a strictly larger mastery than an
incorrect one.  (At `p = 0` or `p = 1` the two sides coincide.) -/
theorem update_strict_evidence_order (m : BKTModel) (p : ℚ) (qd : Option String)
    (hp0 : 0 < p) (hp1 : p < 1)
    (hs : 0 ≤ adjusted_p_slip m qd) (hg : 0 ≤ m.p_guess)
    (hsg : adjusted_p_slip m qd + m.p_guess < 1)
    (hl0 : 0 ≤ adjusted_p_learn m qd) (hl1 : adjusted_p_learn m qd < 1) :
    update_mastery m p true qd > update_mastery m p false qd := by
  set s := adjusted_p_slip m qd with hs_def
  set g := m.p_guess with hg_def
  set l := adjusted_p_learn m qd with hl_def
  have hdenT : 0 < bayesDenominator m p true qd := by
    simp only [bayesDenominator, if_pos, ← hs_def, ← hg_def]
    nlinarith
  have hdenF : 0 < bayesDenominator m p false qd := by
    simp only [bayesDenominator, if_neg, Bool.false_eq_true, not_false_iff,
      ← hs_def, ← hg_def]
    nlinarith
  rw [update_mastery_of_pos_den m p true qd hdenT,
    update_mastery_of_pos_den m p false qd hdenF]
  simp only [bayesNumerator, bayesDenominator, if_pos, if_neg,
    Bool.false_eq_true, not_false_iff, ← hs_def, ← hg_def, ← hl_def]
  set a := p * (1 - s) / (p * (1 - s) + (1 - p) * g) with ha_def
  set b := p * s / (p * s + (1 - p) * (1 - g)) with hb_def
  have hdT : (0:ℚ) < p * (1 - s) + (1 - p) * g := by nlinarith
  have hdF : (0:ℚ) < p * s + (1 - p) * (1 - g) := by nlinarith
  have ha0 : 0 ≤ a := div_nonneg (by nlinarith) hdT.le
  have ha1 : a ≤ 1 := by
    rw [ha_def, div_le_one hdT]; nlinarith
  have hb0 : 0 ≤ b := div_nonneg (by nlinarith) hdF.le
  have hb1 : b ≤ 1 := by
    rw [hb_def, div_le_one hdF]; nlinarith
  have hab : b < a := by
    rw [ha_def, hb_def, div_lt_div_iff₀ hdF hdT]
    nlinarith [mul_pos (mul_pos hp0 (by linarith : (0:ℚ) < 1 - p))
      (by linarith : (0:ℚ) < 1 - s - g)]
  have hT0 : 0 ≤ a + (1 - a) * l := by nlinarith
  have hT1 : a + (1 - a) * l ≤ 1 := by nlinarith
  have hF0 : 0 ≤ b + (1 - b) * l := by nlinarith
  have hF1 : b + (1 - b) * l ≤ 1 := by nlinarith
  rw [max_eq_left hT0, min_eq_left hT1, max_eq_left hF0, min_eq_left hF1]
  nlinarith

/-- Witness for the amended C4: default model, mastery `1/2`, no difficulty. -/
theorem update_strict_evidence_order_witness :
    (0:ℚ) < 1/2 ∧ (1/2:ℚ) < 1 ∧
    0 ≤ adjusted_p_slip defaultModel none ∧ 0 ≤ defaultModel.p_guess ∧
    adjusted_p_slip defaultModel none + defaultModel.p_guess < 1 ∧
    0 ≤ adjusted_p_learn defaultModel none ∧
    adjusted_p_learn defaultModel none < 1 ∧
    update_mastery defaultModel (1/2) true none >
      update_mastery defaultModel (1/2) false none :=
  ⟨by norm_num, by norm_num,
   by norm_num [adjusted_p_slip, defaultModel],
   by norm_num [defaultModel],
   by norm_num [adjusted_p_slip, defaultModel],
   by norm_num [adjusted_p_learn, defaultModel],
   by norm_num [adjusted_p_learn, defaultModel],
   update_strict_evidence_order defaultModel (1/2) none
     (by norm_num) (by norm_num)
     (by norm_num [adjusted_p_slip, defaultModel])
     (by norm_num [defaultModel])
     (by norm_num [adjusted_p_slip, defaultModel])
     (by norm_num [adjusted_p_learn, defaultModel])
     (by norm_num [adjusted_p_learn, defaultModel])⟩

/-- Helper: at full mastery the Bayes numerator and denominator coincide. -/
theorem bayesNumerator_eq_den_at_one (m : BKTModel) (c : Bool)
    (qd : Option String) :
    bayesNumerator m 1 c qd = bayesDenominator m 1 c qd := by
  cases c <;> simp [bayesNumerator, bayesDenominator]

/-- C10: full mastery is absorbing — with base parameters satisfying
`0 < p_slip < 1` and `p_guess < 1`, for every correctness flag and every
difficulty, `update_mastery` at mastery `1` returns `1`. -/
theorem update_mastery_one_absorbing (m : BKTModel) (c : Bool)
    (qd : Option String) (hs0 : 0 < m.p_slip) (hs1 : m.p_slip < 1)
    (hg1 : m.p_guess < 1) :
    update_mastery m 1 c qd = 1 := by
  have hnd := bayesNumerator_eq_den_at_one m c qd
  by_cases h : 0 < bayesDenominator m 1 c qd
  · rw [update_mastery_of_pos_den m 1 c qd h, hnd,
      div_self (ne_of_gt h)]
    norm_num
  · rw [update_mastery_of_nonpos_den m 1 c qd h]
    norm_num

/-- Witness for C10: default model, incorrect answer, hard question. -/
theorem update_mastery_one_absorbing_witness :
    (0:ℚ) < defaultModel.p_slip ∧ defaultModel.p_slip < 1 ∧
    defaultModel.p_guess < 1 ∧
    update_mastery defaultModel 1 false (some "hard") = 1 :=
  ⟨by norm_num [defaultModel], by norm_num [defaultModel],
   by norm_num [defaultModel],
   update_mastery_one_absorbing defaultModel false (some "hard")
     (by norm_num [defaultModel]) (by norm_num [defaultModel])
     (by norm_num [defaultModel])⟩

/-- A question record as consumed by the selection logic: the three fields
the algorithms read (`q.get('id')`, `q.get('skill')`, `q.get('difficulty')`).
`none` models a missing key.  The remaining fields of the repository's
question records (text, options, correct answer, subject) are never read by
the core and are projected away. -/
structure Question where
  id : Option String
  skill : Option String
  difficulty : Option String
deriving DecidableEq

instance : Inhabited Question := ⟨⟨none, none, none⟩⟩

/-- Models `random.choice(l)` for a nonempty `l`: the draw `d` selects the
element at index `d % l.length`; as `d` ranges over `ℕ` this realises every
possible draw. -/
def choice (l : List Question) (d : Nat) : Question :=
  l.getD (d % l.length) default

/-- The chosen element of a nonempty list is an element of it. -/
theorem choice_mem (l : List Question) (d : Nat) (h : l ≠ []) :
    choice l d ∈ l := by
  have hlen : 0 < l.length := List.length_pos.mpr h
  have hidx : d % l.length < l.length := Nat.mod_lt _ hlen
  rw [choice, List.getD_eq_getElem l default hidx]
  exact List.getElem_mem hidx

/-- Rounding half to even, the rounding of Python's float formatting. -/
def roundHalfEven (x : ℚ) : ℤ :=
  let f := ⌊x⌋
  let r := x - f
  if r < 1/2 then f
  else if 1/2 < r then f + 1
  else if f % 2 = 0 then f else f + 1

/-- Renders a natural number below 100 with two digits. -/
def twoDigits (n : ℕ) : String :=
  if n < 10 then "0" ++ toString n else toString n

/-- Models Python's `f"{x:.2f}"` fixed-point formatting on exact rationals
(it agrees with the float formatting at every value the spec exercises). -/
def fmt2 (x : ℚ) : String :=
  let n := roundHalfEven (x * 100)
  if n < 0 then
    "-" ++ toString (n.natAbs / 100) ++ "." ++ twoDigits (n.natAbs % 100)
  else
    toString (n.natAbs / 100) ++ "." ++ twoDigits (n.natAbs % 100)

/-- The exclusion filter at the top of `select_next_question`: applied only
when `exclude_ids` is truthy (nonempty), and a question with no id is never
excluded (`None not in exclude_ids` is true). -/
def filterExcluded (available_questions : List Question)
    (exclude_ids : List String) : List Question :=
  if exclude_ids.isEmpty then available_questions
  else available_questions.filter (fun q =>
    match q.id with
    | some i => !exclude_ids.contains i
    | none => true)

/-- The weak-skill sub-dictionary of `select_next_question`, in the iteration
order of `skill_masteries`. -/
def weakSkills (skill_masteries : List (String × ℚ)) (threshold : ℚ) :
    List (String × ℚ) :=
  skill_masteries.filter (fun kv => kv.2 < threshold)

/-- Models `min(weak_skills.keys(), key=lambda k: weak_skills[k])` on a
nonempty dict: the first key attaining the minimal mastery. -/
def argminSnd (x : String × ℚ) (xs : List (String × ℚ)) : String × ℚ :=
  xs.foldl (fun acc y => if y.2 < acc.2 then y else acc) x

/-- The mastery-banded preferred difficulties of the weak-skill branch. -/
def preferred_difficulties (mastery : ℚ) : List String :=
  if mastery < 0.3 then ["very_easy", "easy"]
  else if mastery < 0.6 then ["easy", "medium"]
  else ["medium", "hard"]

/-- The grouping key `q.get('skill', 'unknown')`. -/
def skillKey (q : Question) : String := q.skill.getD "unknown"

/-- Appends `q` to the group of key `k`, creating the group at the end if it
does not exist — the association-list model of the Python `skill_groups` /
`skills` dict-building loops (insertion order preserved). -/
def addToGroups (gs : List (String × List Question)) (k : String)
    (q : Question) : List (String × List Question) :=
  match gs with
  | [] => [(k, [q])]
  | (k1, qs) :: rest =>
      if k1 = k then (k1, qs ++ [q]) :: rest
      else (k1, qs) :: addToGroups rest k q

/-- Groups a question list by `skillKey`, in insertion order. -/
def groupBySkill (l : List Question) : List (String × List Question) :=
  l.foldl (fun gs q => addToGroups gs (skillKey q) q) []

/-- Dict lookup `skill_masteries[s]` / `s in skill_masteries`. -/
def lookupMastery (skill_masteries : List (String × ℚ)) (s : String) :
    Option ℚ :=
  (skill_masteries.find? (fun kv => kv.1 = s)).map Prod.snd

/-- Dict lookup in the skill groups. -/
def findGroup (gs : List (String × List Question)) (k : String) :
    Option (List Question) :=
  (gs.find? (fun g => g.1 = k)).map Prod.snd

/-- Models `min(candidates, key=lambda s: skill_masteries.get(s, 0))`:
first minimum in list order. -/
def argminByMastery (skill_masteries : List (String × ℚ)) (x : String)
    (xs : List String) : String :=
  xs.foldl (fun acc y =>
    if (lookupMastery skill_masteries y).getD 0 <
        (lookupMastery skill_masteries acc).getD 0 then y else acc) x

/-- The questions of the (filtered) pool tagged with the target skill
(`q.get('skill') == target_skill`; a question with no skill never matches). -/
def matchingFor (pool : List Question) (t : String) : List Question :=
  pool.filter (fun q => q.skill = some t)

/-- The matching questions whose difficulty lies in the preferred band
(`q.get('difficulty') in preferred_difficulties`; a missing difficulty is
`None`, which is never in the band). -/
def preferredFor (l : List Question) (mastery : ℚ) : List Question :=
  l.filter (fun q =>
    match q.difficulty with
    | some s => (preferred_difficulties mastery).contains s
    | none => false)

/-- The shared reason string of the random fallback (Strategy 3). -/
def randomReason : String :=
  "Random selection (all skills above threshold or no skill match)"

/-- Strategies 2 and 3 of `select_next_question` (bkt_model.py lines
313-339), reached when the weak-skill branch does not return: exploration
balancing over the skill groups, then random fallback. -/
def selectBalanced (skill_masteries : List (String × ℚ))
    (available_questions : List Question) (d : Nat) :
    Option Question × String :=
  let skill_groups := groupBySkill available_questions
  if 1 < skill_groups.length then
    if skill_masteries.isEmpty then
      (some (choice available_questions d), randomReason)
    else
      match (skill_groups.map Prod.fst).filter
          (fun s => (lookupMastery skill_masteries s).isSome) with
      | [] => (some (choice available_questions d), randomReason)
      | c :: cs =>
          let least_practiced := argminByMastery skill_masteries c cs
          if least_practiced ≠ "" ∧ (findGroup skill_groups least_practiced).isSome then
            (some (choice ((findGroup skill_groups least_practiced).getD []) d),
             "Balancing skill exposure: " ++ least_practiced ++ " (mastery: " ++
               fmt2 ((lookupMastery skill_masteries least_practiced).getD 0) ++ ")")
          else
            (some (choice available_questions d), randomReason)
  else (some (choice available_questions d), randomReason)

/-- `BKTModel.select_next_question` (bkt_model.py lines 232-339): empty-pool
guard, exclusion filter, weak-skill targeting with difficulty banding, then
the `selectBalanced` fallbacks.  `difficulty_weight` is declared by the
source and never used.  `d` is the randomness draw. -/
def select_next_question (skill_masteries : List (String × ℚ))
    (available_questions : List Question) (threshold : ℚ := 0.8)
    (difficulty_weight : ℚ := 0.3) (exclude_ids : List String := [])
    (d : Nat := 0) : Option Question × String :=
  if available_questions.isEmpty then (none, "No questions available")
  else
    let available := filterExcluded available_questions exclude_ids
    if available.isEmpty then (none, "No questions available after filtering")
    else
      match weakSkills skill_masteries threshold with
      | [] => selectBalanced skill_masteries available d
      | w :: ws =>
          let target := argminSnd w ws
          let matching := matchingFor available target.1
          if matching.isEmpty then selectBalanced skill_masteries available d
          else
            let preferred_questions := preferredFor matching target.2
            if preferred_questions.isEmpty then
              (some (choice matching d),
               "Targeting weak skill: " ++ target.1 ++ " (mastery: " ++
                 fmt2 target.2 ++ ")")
            else
              let question := choice preferred_questions d
              (some question,
               "Targeting weak skill: " ++ target.1 ++ " (mastery: " ++
                 fmt2 target.2 ++ ") with " ++
                 question.difficulty.getD "medium" ++ " difficulty")

/-- If the pool is empty after the exclusion filter, so was the input pool. -/
theorem filterExcluded_ne_nil {pool : List Question} {excl : List String}
    (h : filterExcluded pool excl ≠ []) : pool.isEmpty = false := by
  rw [List.isEmpty_eq_false]
  intro h0
  apply h
  rw [h0]
  unfold filterExcluded
  split <;> rfl

/-- Branch characterization: when the weak-skill dict is nonempty and the
target skill has matching questions in the preferred-difficulty band, the
weak-skill branch returns the banded choice. -/
theorem select_weak_preferred_eq (ms : List (String × ℚ))
    (pool : List Question) (th dw : ℚ) (excl : List String) (d : Nat)
    (w : String × ℚ) (ws : List (String × ℚ))
    (hw : weakSkills ms th = w :: ws)
    (hpref : preferredFor
      (matchingFor (filterExcluded pool excl) (argminSnd w ws).1)
      (argminSnd w ws).2 ≠ []) :
    select_next_question ms pool th dw excl d =
      (some (choice (preferredFor
          (matchingFor (filterExcluded pool excl) (argminSnd w ws).1)
          (argminSnd w ws).2) d),
       "Targeting weak skill: " ++ (argminSnd w ws).1 ++ " (mastery: " ++
         fmt2 (argminSnd w ws).2 ++ ") with " ++
         (choice (preferredFor
           (matchingFor (filterExcluded pool excl) (argminSnd w ws).1)
           (argminSnd w ws).2) d).difficulty.getD "medium" ++
         " difficulty") := by
  have hmatch : matchingFor (filterExcluded pool excl) (argminSnd w ws).1 ≠ [] := by
    intro h0
    apply hpref
    rw [h0]
    rfl
  have havail : filterExcluded pool excl ≠ [] := by
    intro h0
    apply hmatch
    rw [h0]
    rfl
  have hpool : pool.isEmpty = false := filterExcluded_ne_nil havail
  unfold select_next_question
  dsimp only []
  rw [hpool]
  simp only [Bool.false_eq_true, if_false]
  rw [(List.isEmpty_eq_false).mpr havail]
  simp only [Bool.false_eq_true, if_false, hw]
  rw [(List.isEmpty_eq_false).mpr hmatch]
  simp only [Bool.false_eq_true, if_false]
  rw [(List.isEmpty_eq_false).mpr hpref]
  simp only [Bool.false_eq_true, if_false]

/-- Branch characterization: when the weak-skill dict is nonempty, the target
skill has matching questions, but none in the preferred band, the weak-skill
branch returns a choice among all matching questions. -/
theorem select_weak_unpreferred_eq (ms : List (String × ℚ))
    (pool : List Question) (th dw : ℚ) (excl : List String) (d : Nat)
    (w : String × ℚ) (ws : List (String × ℚ))
    (hw : weakSkills ms th = w :: ws)
    (hmatch : matchingFor (filterExcluded pool excl) (argminSnd w ws).1 ≠ [])
    (hpref : preferredFor
      (matchingFor (filterExcluded pool excl) (argminSnd w ws).1)
      (argminSnd w ws).2 = []) :
    select_next_question ms pool th dw excl d =
      (some (choice (matchingFor (filterExcluded pool excl)
          (argminSnd w ws).1) d),
       "Targeting weak skill: " ++ (argminSnd w ws).1 ++ " (mastery: " ++
         fmt2 (argminSnd w ws).2 ++ ")") := by
  have havail : filterExcluded pool excl ≠ [] := by
    intro h0
    apply hmatch
    rw [h0]
    rfl
  have hpool : pool.isEmpty = false := filterExcluded_ne_nil havail
  unfold select_next_question
  dsimp only []
  rw [hpool]
  simp only [Bool.false_eq_true, if_false]
  rw [(List.isEmpty_eq_false).mpr havail]
  simp only [Bool.false_eq_true, if_false, hw]
  rw [(List.isEmpty_eq_false).mpr hmatch]
  simp only [Bool.false_eq_true, if_false]
  rw [hpref]
  simp only [List.isEmpty_nil, if_true]

/-- Branch characterization: when the weak-skill dict is nonempty but the
(weakest) target skill has no matching question, control falls through to the
balancing/random fallbacks. -/
theorem select_weak_no_match_eq (ms : List (String × ℚ))
    (pool : List Question) (th dw : ℚ) (excl : List String) (d : Nat)
    (w : String × ℚ) (ws : List (String × ℚ))
    (hpool : pool.isEmpty = false)
    (havail : filterExcluded pool excl ≠ [])
    (hw : weakSkills ms th = w :: ws)
    (hmatch : matchingFor (filterExcluded pool excl) (argminSnd w ws).1 = []) :
    select_next_question ms pool th dw excl d =
      selectBalanced ms (filterExcluded pool excl) d := by
  unfold select_next_question
  dsimp only []
  rw [hpool]
  simp only [Bool.false_eq_true, if_false]
  rw [(List.isEmpty_eq_false).mpr havail]
  simp only [Bool.false_eq_true, if_false, hw]
  rw [hmatch]
  simp only [List.isEmpty_nil, if_true]

/-- The single question of the C5 counterexample pool: tagged with skill
`"b"`, which is weak but not the weakest. -/
def skillBQuestion : Question := ⟨some "q1", some "b", some "medium"⟩

/-- Counterexample to C5 as stated: masteries `a ↦ 0.1, b ↦ 0.5` (both weak
at threshold `0.8`) and a pool holding one question tagged `b`.  The weak
skill `b` has a matching question in the pool, yet Step 1 does not produce
the result: the code only looks for questions of the weakest skill `a`,
finds none, and falls through to the Step 3 random fallback. -/
theorem weak_skill_fallback_despite_match :
    select_next_question [("a", 0.1), ("b", 0.5)] [skillBQuestion]
        0.8 0.3 [] 0 = (some skillBQuestion, randomReason) ∧
    (0.5 : ℚ) < 0.8 ∧ skillBQuestion.skill = some "b" := by
  refine ⟨?_, by norm_num, rfl⟩
  have hw : weakSkills [("a", 0.1), ("b", 0.5)] 0.8 =
      [("a", (0.1:ℚ)), ("b", 0.5)] := by
    norm_num [weakSkills]
  have hmatch : matchingFor
      (filterExcluded [skillBQuestion] [])
      (argminSnd ("a", (0.1:ℚ)) [("b", 0.5)]).1 = [] := by
    norm_num [matchingFor, filterExcluded, argminSnd, skillBQuestion]
    decide
  rw [select_weak_no_match_eq [("a", 0.1), ("b", 0.5)] [skillBQuestion]
    0.8 0.3 [] 0 ("a", (0.1:ℚ)) [("b", 0.5)] rfl
    (by simp [filterExcluded, skillBQuestion]) hw hmatch]
  simp [selectBalanced, filterExcluded, groupBySkill, addToGroups, skillKey,
    choice, skillBQuestion]

/-- C5 (amended): Steps 2/3 are reached only when the weakest weak skill
(the argmin target) has no matching question in the filtered pool, or no
skill is below threshold — whenever the target skill has at least one
question tagged with it, the weak-skill branch (Step 1) produces the result:
a question tagged with the target skill, with a reason beginning
`Targeting weak skill: {skill} (mastery: {p:.2f})`. -/
theorem weak_skill_target_step1 (ms : List (String × ℚ))
    (pool : List Question) (th dw : ℚ) (excl : List String) (d : Nat)
    (w : String × ℚ) (ws : List (String × ℚ))
    (hw : weakSkills ms th = w :: ws)
    (hmatch : matchingFor (filterExcluded pool excl) (argminSnd w ws).1 ≠ []) :
    ∃ q rest, select_next_question ms pool th dw excl d =
        (some q, "Targeting weak skill: " ++ (argminSnd w ws).1 ++
          " (mastery: " ++ fmt2 (argminSnd w ws).2 ++ rest) ∧
      q.skill = some (argminSnd w ws).1 ∧ q ∈ filterExcluded pool excl := by
  by_cases hp : preferredFor
      (matchingFor (filterExcluded pool excl) (argminSnd w ws).1)
      (argminSnd w ws).2 = []
  · rw [select_weak_unpreferred_eq ms pool th dw excl d w ws hw hmatch hp]
    have hq := choice_mem _ d hmatch
    have hq2 := List.mem_filter.mp hq
    refine ⟨_, ")", by simp [String.append_assoc], ?_, hq2.1⟩
    exact of_decide_eq_true hq2.2
  · rw [select_weak_preferred_eq ms pool th dw excl d w ws hw hp]
    have hq := choice_mem _ d hp
    have hq1 : choice (preferredFor
        (matchingFor (filterExcluded pool excl) (argminSnd w ws).1)
        (argminSnd w ws).2) d ∈
        matchingFor (filterExcluded pool excl) (argminSnd w ws).1 :=
      List.mem_of_mem_filter hq
    have hq2 := List.mem_filter.mp hq1
    refine ⟨_, ") with " ++ (choice (preferredFor
        (matchingFor (filterExcluded pool excl) (argminSnd w ws).1)
        (argminSnd w ws).2) d).difficulty.getD "medium" ++ " difficulty",
      by simp [String.append_assoc], ?_, hq2.1⟩
    exact of_decide_eq_true hq2.2

/-- Witness for the amended C5: one weak skill `algebra` with one matching
question. -/
theorem weak_skill_target_step1_witness :
    weakSkills [("algebra", 0.2)] 0.8 = [("algebra", (0.2:ℚ))] ∧
    matchingFor (filterExcluded [⟨some "qa", some "algebra", some "easy"⟩] [])
      (argminSnd ("algebra", (0.2:ℚ)) []).1 ≠ [] ∧
    ∃ q rest,
      select_next_question [("algebra", 0.2)]
          [⟨some "qa", some "algebra", some "easy"⟩] 0.8 0.3 [] 0 =
        (some q, "Targeting weak skill: " ++ (argminSnd ("algebra", (0.2:ℚ)) []).1 ++
          " (mastery: " ++ fmt2 (argminSnd ("algebra", (0.2:ℚ)) []).2 ++ rest) ∧
      q.skill = some (argminSnd ("algebra", (0.2:ℚ)) []).1 ∧
      q ∈ filterExcluded [⟨some "qa", some "algebra", some "easy"⟩] [] :=
  ⟨by norm_num [weakSkills], by simp [matchingFor, filterExcluded, argminSnd],
   weak_skill_target_step1 [("algebra", 0.2)]
     [⟨some "qa", some "algebra", some "easy"⟩] 0.8 0.3 [] 0
     ("algebra", (0.2:ℚ)) [] (by norm_num [weakSkills])
     (by simp [matchingFor, filterExcluded, argminSnd])⟩

/-- The two questions of the C6 concrete instance. -/
def algebraEasyQuestion : Question := ⟨some "qe", some "algebra", some "easy"⟩

/-- The hard algebra question of the C6 concrete instance. -/
def algebraHardQuestion : Question := ⟨some "qh", some "algebra", some "hard"⟩

/-- C6: weak-skill targeting with difficulty banding.  First conjunct: when
the weak-skill branch fires and the preferred-difficulty band of the target
mastery is inhabited in the pool, every draw returns a question tagged with
the target skill whose difficulty lies in the band, with the exact reason
string.  Second conjunct: the spec's concrete instance — threshold `0.8`,
masteries `algebra ↦ 0.2, geometry ↦ 0.9`, a pool of only algebra questions
of difficulties easy and hard — always returns the (easy) algebra question,
never a geometry one. -/
theorem weak_skill_banded_targeting :
    (∀ (ms : List (String × ℚ)) (pool : List Question) (th dw : ℚ)
       (excl : List String) (d : Nat) (w : String × ℚ)
       (ws : List (String × ℚ)),
       weakSkills ms th = w :: ws →
       preferredFor (matchingFor (filterExcluded pool excl)
         (argminSnd w ws).1) (argminSnd w ws).2 ≠ [] →
       ∃ q, select_next_question ms pool th dw excl d =
           (some q, "Targeting weak skill: " ++ (argminSnd w ws).1 ++
             " (mastery: " ++ fmt2 (argminSnd w ws).2 ++ ") with " ++
             q.difficulty.getD "medium" ++ " difficulty") ∧
         q.skill = some (argminSnd w ws).1 ∧
         ∃ s ∈ preferred_difficulties (argminSnd w ws).2,
           q.difficulty = some s) ∧
    (∀ d : Nat,
       select_next_question [("algebra", 0.2), ("geometry", 0.9)]
           [algebraEasyQuestion, algebraHardQuestion] 0.8 0.3 [] d =
         (some algebraEasyQuestion,
          "Targeting weak skill: algebra (mastery: 0.20) with easy difficulty")) := by
  constructor
  · intro ms pool th dw excl d w ws hw hpref
    rw [select_weak_preferred_eq ms pool th dw excl d w ws hw hpref]
    have hq := choice_mem _ d hpref
    have hq1 := List.mem_filter.mp hq
    have hq2 := List.mem_filter.mp hq1.1
    refine ⟨_, rfl, of_decide_eq_true hq2.2, ?_⟩
    rcases hd : (choice (preferredFor (matchingFor (filterExcluded pool excl)
        (argminSnd w ws).1) (argminSnd w ws).2) d).difficulty with _ | s
    · rw [hd] at hq1
      simp at hq1
    · rw [hd] at hq1
      refine ⟨s, ?_, rfl⟩
      simpa using hq1.2
  · intro d
    have hw : weakSkills [("algebra", 0.2), ("geometry", 0.9)] 0.8 =
        [("algebra", (0.2:ℚ))] := by norm_num [weakSkills]
    have hP : preferredFor (matchingFor
        (filterExcluded [algebraEasyQuestion, algebraHardQuestion] [])
        (argminSnd ("algebra", (0.2:ℚ)) []).1)
        (argminSnd ("algebra", (0.2:ℚ)) []).2 = [algebraEasyQuestion] := by
      norm_num [preferredFor, matchingFor, filterExcluded, argminSnd,
        preferred_difficulties, algebraEasyQuestion, algebraHardQuestion]
      decide
    rw [select_weak_preferred_eq _ _ _ _ _ d ("algebra", (0.2:ℚ)) [] hw
      (by rw [hP]; exact List.cons_ne_nil _ _)]
    rw [hP]
    have hc : choice [algebraEasyQuestion] d = algebraEasyQuestion := by
      simp [choice, Nat.mod_one]
    rw [hc]
    have hf : fmt2 ((argminSnd ("algebra", (0.2:ℚ)) []).2) = "0.20" := by
      norm_num [fmt2, roundHalfEven, argminSnd]
      rfl
    rw [hf]
    rfl

/-- Witness for C6, applying the general conjunct at a concrete input. -/
theorem weak_skill_banded_targeting_witness :
    weakSkills [("algebra", 0.2), ("geometry", 0.9)] 0.8 =
      [("algebra", (0.2:ℚ))] ∧
    preferredFor (matchingFor
      (filterExcluded [algebraEasyQuestion, algebraHardQuestion] [])
      (argminSnd ("algebra", (0.2:ℚ)) []).1)
      (argminSnd ("algebra", (0.2:ℚ)) []).2 ≠ [] ∧
    ∃ q, select_next_question [("algebra", 0.2), ("geometry", 0.9)]
        [algebraEasyQuestion, algebraHardQuestion] 0.8 0.3 [] 0 =
        (some q, "Targeting weak skill: " ++ (argminSnd ("algebra", (0.2:ℚ)) []).1 ++
          " (mastery: " ++ fmt2 (argminSnd ("algebra", (0.2:ℚ)) []).2 ++ ") with " ++
          q.difficulty.getD "medium" ++ " difficulty") ∧
      q.skill = some (argminSnd ("algebra", (0.2:ℚ)) []).1 ∧
      ∃ s ∈ preferred_difficulties (argminSnd ("algebra", (0.2:ℚ)) []).2,
        q.difficulty = some s :=
  ⟨by norm_num [weakSkills],
   by
     norm_num [preferredFor, matchingFor, filterExcluded, argminSnd,
       preferred_difficulties, algebraEasyQuestion, algebraHardQuestion]
     exact List.cons_ne_nil _ _,
   weak_skill_banded_targeting.1 [("algebra", 0.2), ("geometry", 0.9)]
     [algebraEasyQuestion, algebraHardQuestion] 0.8 0.3 [] 0
     ("algebra", (0.2:ℚ)) []
     (by norm_num [weakSkills])
     (by
       norm_num [preferredFor, matchingFor, filterExcluded, argminSnd,
         preferred_difficulties, algebraEasyQuestion, algebraHardQuestion]
       exact List.cons_ne_nil _ _)⟩

/-- C7: empty-pool reasons.  An empty candidate pool returns
`(none, "No questions available")`; a nonempty pool whose every question id
is excluded returns `(none, "No questions available after filtering")` —
two distinct verbatim strings, and the (total) function raises no
exception in either case. -/
theorem empty_pool_reasons (ms : List (String × ℚ)) (th dw : ℚ)
    (excl : List String) (d : Nat) (pool : List Question) :
    select_next_question ms [] th dw excl d =
      (none, "No questions available") ∧
    (pool ≠ [] → (∀ q ∈ pool, ∃ i, q.id = some i ∧ i ∈ excl) →
      select_next_question ms pool th dw excl d =
        (none, "No questions available after filtering")) := by
  constructor
  · rfl
  · intro hne hall
    have hexcl : excl.isEmpty = false := by
      rw [List.isEmpty_eq_false]
      obtain ⟨q, hq⟩ := List.exists_mem_of_ne_nil pool hne
      obtain ⟨i, _, hiexcl⟩ := hall q hq
      intro h0
      rw [h0] at hiexcl
      exact absurd hiexcl (List.not_mem_nil i)
    have hfilter : filterExcluded pool excl = [] := by
      unfold filterExcluded
      rw [hexcl]
      simp only [Bool.false_eq_true, if_false]
      rw [List.filter_eq_nil_iff]
      intro q hq
      obtain ⟨i, hqi, hiexcl⟩ := hall q hq
      rw [hqi]
      simp [hiexcl]
    unfold select_next_question
    dsimp only []
    rw [List.isEmpty_eq_false.mpr hne]
    simp only [Bool.false_eq_true, if_false]
    rw [hfilter]
    rfl

/-- Witness for C7 at a concrete input: a one-question pool whose id is
excluded. -/
theorem empty_pool_reasons_witness :
    ([(⟨some "a1", some "s", none⟩ : Question)] ≠ []) ∧
    (∀ q ∈ [(⟨some "a1", some "s", none⟩ : Question)],
      ∃ i, q.id = some i ∧ i ∈ ["a1"]) ∧
    select_next_question [] [⟨some "a1", some "s", none⟩] 0.8 0.3 ["a1"] 0 =
      (none, "No questions available after filtering") :=
  ⟨by simp, by simp,
   (empty_pool_reasons [] 0.8 0.3 ["a1"] 0 [⟨some "a1", some "s", none⟩]).2
     (by simp) (by simp)⟩

/-- The difficulty sort key of `select_assessment_questions`:
`{'very_easy': 0, 'easy': 1, 'medium': 2, 'hard': 3}.get(q.get('difficulty',
'medium'), 2)`. -/
def diffRank (q : Question) : Nat :=
  match q.difficulty.getD "medium" with
  | "very_easy" => 0
  | "easy" => 1
  | "medium" => 2
  | "hard" => 3
  | _ => 2

/-- Models Python's stable `list.sort(key=diffRank)` (insertion sort with a
non-strict comparison is stable, like Python's timsort). -/
def sortByDifficulty (l : List Question) : List Question :=
  List.insertionSort (fun a b => diffRank a ≤ diffRank b) l

/-- Helper for `sliceStep`: the countdown until the next retained element. -/
def sliceStepFrom (step : Nat) : Nat → List Question → List Question
  | _, [] => []
  | 0, x :: xs => x :: sliceStepFrom step (step - 1) xs
  | k + 1, _ :: xs => sliceStepFrom step k xs

/-- Models the Python slice `l[::step]` for `step ≥ 1`: every `step`-th
element starting at index 0. -/
def sliceStep (step : Nat) (l : List Question) : List Question :=
  sliceStepFrom step 0 l

/-- Models `random.shuffle(l)`: the draws `ds` repeatedly select (by index
modulo the current length) the next element of the output, realising
exactly the permutations of `l` as `ds` varies. -/
def randPerm (ds : List Nat) (l : List Question) : List Question :=
  match ds, l with
  | [], l => l
  | _ :: _, [] => []
  | d :: ds, x :: xs =>
      (x :: xs).getD (d % (x :: xs).length) default ::
        randPerm ds ((x :: xs).eraseIdx (d % (x :: xs).length))

/-- The deterministic part of `select_assessment_questions`
(assessment.py lines 261-316, everything before the final shuffle): clamp
the count, group by skill, sort each group by difficulty, take an
evenly-spaced sample per skill, fill from the unselected remainder sorted by
difficulty, truncate to the count. -/
def assessmentSelection (questions : List Question) (count0 : Nat) :
    List Question :=
  let count := min count0 questions.length
  let skills := (groupBySkill questions).map
    (fun kqs => (kqs.1, sortByDifficulty kqs.2))
  let questions_per_skill := max 1 (count / skills.length)
  let firstPass := (skills.map (fun kqs =>
      (sliceStep (max 1 (kqs.2.length / questions_per_skill))
        kqs.2).take questions_per_skill)).flatten
  let selected :=
    if firstPass.length < count then
      firstPass ++ (sortByDifficulty
        (((skills.map Prod.snd).flatten).filter
          (fun q => q ∉ firstPass))).take (count - firstPass.length)
    else firstPass
  selected.take count

/-- `select_assessment_questions` (assessment.py lines 261-319): empty-pool
guard, the deterministic selection, then the final shuffle with draws `ds`. -/
def select_assessment_questions (questions : List Question) (count : Nat)
    (ds : List Nat) : List Question :=
  if questions.isEmpty then []
  else randPerm ds (assessmentSelection questions count)

/-- Moving a list's element of index `i` to the front is a permutation. -/
theorem cons_getElem_eraseIdx_perm (l : List Question) (i : Nat)
    (h : i < l.length) : (l[i] :: l.eraseIdx i).Perm l := by
  rw [List.eraseIdx_eq_take_drop_succ]
  have h1 : (l[i] :: (l.take i ++ l.drop (i + 1))).Perm
      (l.take i ++ (l[i] :: l.drop (i + 1))) := List.perm_middle.symm
  rw [List.getElem_cons_drop l i h, List.take_append_drop] at h1
  exact h1

/-- The shuffle only permutes its input. -/
theorem randPerm_perm (ds : List Nat) (l : List Question) :
    (randPerm ds l).Perm l := by
  induction ds generalizing l with
  | nil => exact List.Perm.refl l
  | cons d ds ih =>
      cases l with
      | nil => exact List.Perm.refl []
      | cons x xs =>
          have hlen : 0 < (x :: xs).length := by simp
          have hi : d % (x :: xs).length < (x :: xs).length :=
            Nat.mod_lt _ hlen
          show ((x :: xs).getD (d % (x :: xs).length) default ::
              randPerm ds ((x :: xs).eraseIdx (d % (x :: xs).length))).Perm
            (x :: xs)
          rw [List.getD_eq_getElem _ default hi]
          exact ((ih _).cons _).trans (cons_getElem_eraseIdx_perm _ _ hi)

/-- C9: assessment selection is deterministic up to final order — for every
pool and count, any two randomness draws return the same multiset of
questions (randomness only permutes the presentation order). -/
theorem select_assessment_deterministic_up_to_order
    (questions : List Question) (count : Nat) (ds1 ds2 : List Nat) :
    (select_assessment_questions questions count ds1).Perm
      (select_assessment_questions questions count ds2) := by
  unfold select_assessment_questions
  by_cases h : questions.isEmpty = true
  · rw [if_pos h, if_pos h]
  · rw [if_neg h, if_neg h]
    exact (randPerm_perm _ _).trans (randPerm_perm _ _).symm

/-- Adding a question to its group appends it to the grouped multiset. -/
theorem addToGroups_flatten_perm (gs : List (String × List Question))
    (k : String) (q : Question) :
    (((addToGroups gs k q).map Prod.snd).flatten).Perm
      ((gs.map Prod.snd).flatten ++ [q]) := by
  induction gs with
  | nil => simp [addToGroups]
  | cons g rest ih =>
      obtain ⟨k1, qs⟩ := g
      by_cases h : k1 = k
      · simp only [addToGroups, if_pos h, List.map_cons, List.flatten_cons]
        rw [List.append_assoc, List.append_assoc]
        exact List.Perm.append_left qs List.perm_append_comm
      · simp only [addToGroups, if_neg h, List.map_cons, List.flatten_cons]
        rw [List.append_assoc]
        exact List.Perm.append_left qs ih

/-- The grouping invariant: every group is nonempty and holds exactly the
questions carrying its key. -/
def GroupsInv (gs : List (String × List Question)) : Prop :=
  ∀ kqs ∈ gs, kqs.2 ≠ [] ∧ ∀ q ∈ kqs.2, skillKey q = kqs.1

/-- `addToGroups` preserves the grouping invariant. -/
theorem addToGroups_inv (k : String) (q : Question) (hk : skillKey q = k) :
    ∀ gs, GroupsInv gs → GroupsInv (addToGroups gs k q) := by
  intro gs
  induction gs with
  | nil =>
      intro _ kqs hkqs
      simp only [addToGroups, List.mem_singleton] at hkqs
      subst hkqs
      exact ⟨List.cons_ne_nil _ _, by
        intro x hx
        simp only [List.mem_singleton] at hx
        subst hx
        exact hk⟩
  | cons g rest ih =>
      obtain ⟨k1, qs⟩ := g
      intro hg kqs hkqs
      by_cases h : k1 = k
      · simp only [addToGroups, if_pos h, List.mem_cons] at hkqs
        rcases hkqs with rfl | hmem
        · refine ⟨by simp, ?_⟩
          intro x hx
          rcases List.mem_append.mp hx with hx1 | hx2
          · exact (hg _ (List.mem_cons_self _ _)).2 x hx1
          · simp only [List.mem_singleton] at hx2
            subst hx2
            rw [hk, h]
        · exact hg _ (List.mem_cons_of_mem _ hmem)
      · simp only [addToGroups, if_neg h, List.mem_cons] at hkqs
        rcases hkqs with rfl | hmem
        · exact hg _ (List.mem_cons_self _ _)
        · exact ih (fun x hx => hg x (List.mem_cons_of_mem _ hx)) _ hmem

/-- The grouping fold flattens to a permutation of its input (generalized
over the accumulator). -/
theorem foldl_addToGroups_flatten_perm (l : List Question) :
    ∀ gs, (((l.foldl (fun gs q => addToGroups gs (skillKey q) q) gs).map
      Prod.snd).flatten).Perm ((gs.map Prod.snd).flatten ++ l) := by
  induction l with
  | nil => intro gs; simp
  | cons x xs ih =>
      intro gs
      simp only [List.foldl_cons]
      have h4 := (ih (addToGroups gs (skillKey x) x)).trans
        ((addToGroups_flatten_perm gs (skillKey x) x).append_right xs)
      rw [List.append_assoc, List.singleton_append] at h4
      exact h4

/-- The groups of `groupBySkill` flatten to a permutation of the input. -/
theorem groupBySkill_flatten_perm (l : List Question) :
    (((groupBySkill l).map Prod.snd).flatten).Perm l := by
  simpa using foldl_addToGroups_flatten_perm l []

/-- `groupBySkill` satisfies the grouping invariant. -/
theorem groupBySkill_inv (l : List Question) : GroupsInv (groupBySkill l) := by
  suffices h : ∀ gs, GroupsInv gs →
      GroupsInv (l.foldl (fun gs q => addToGroups gs (skillKey q) q) gs) by
    exact h [] (fun kqs hkqs => absurd hkqs (List.not_mem_nil kqs))
  induction l with
  | nil => intro gs hg; exact hg
  | cons x xs ih => intro gs hg; exact ih _ (addToGroups_inv _ _ rfl gs hg)

/-- Splitting a list's length by membership in a reference list. -/
theorem length_filter_mem_split (l fp : List Question) :
    (l.filter (fun q => q ∈ fp)).length +
      (l.filter (fun q => q ∉ fp)).length = l.length := by
  induction l with
  | nil => rfl
  | cons x xs ih =>
      simp only [decide_not] at ih ⊢
      by_cases hx : x ∈ fp <;> simp [List.filter_cons, hx] <;> omega

/-- On a duplicate-free list, at most `fp.length` elements lie in `fp`. -/
theorem length_filter_mem_le (l fp : List Question) (hnd : l.Nodup) :
    (l.filter (fun q => q ∈ fp)).length ≤ fp.length := by
  apply List.Subperm.length_le
  apply List.Nodup.subperm (hnd.filter _)
  intro x hx
  exact of_decide_eq_true (List.mem_filter.mp hx).2

/-- Every element of a step-slice is an element of the list. -/
theorem sliceStepFrom_subset (step : Nat) (k : Nat) (l : List Question) :
    sliceStepFrom step k l ⊆ l := by
  induction l generalizing k with
  | nil => cases k <;> simp [sliceStepFrom]
  | cons x xs ih =>
      cases k with
      | zero => exact List.cons_subset_cons x (ih _)
      | succ k => exact (ih k).trans (List.subset_cons_self _ _)

/-- A step-slice of a nonempty list is nonempty (it keeps the head). -/
theorem sliceStep_ne_nil (step : Nat) (l : List Question) (h : l ≠ []) :
    sliceStep step l ≠ [] := by
  cases l with
  | nil => exact absurd rfl h
  | cons x xs => exact List.cons_ne_nil _ _

/-- Sorting the groups' question lists leaves the flattened multiset
unchanged. -/
theorem skills_flatten_perm (gs : List (String × List Question)) :
    (((gs.map (fun kqs => (kqs.1, sortByDifficulty kqs.2))).map
      Prod.snd).flatten).Perm ((gs.map Prod.snd).flatten) := by
  induction gs with
  | nil => exact List.Perm.refl []
  | cons g rest ih =>
      simp only [List.map_cons, List.flatten_cons]
      exact (List.perm_insertionSort _ _).append ih

/-- Length of the fill-then-truncate step: as soon as the fill source can
cover the deficit, the truncated result has exactly the clamped count. -/
theorem length_fill_take (fp R : List Question) (c : Nat)
    (hR : c ≤ fp.length + R.length) :
    ((if fp.length < c then fp ++ R.take (c - fp.length) else fp).take
      c).length = c := by
  by_cases h : fp.length < c
  · rw [if_pos h, List.length_take, List.length_append, List.length_take]
    omega
  · rw [if_neg h, List.length_take]
    omega

/-- On a duplicate-free pool, the deterministic selection returns exactly
`min count pool.length` questions. -/
theorem assessmentSelection_length (questions : List Question) (count0 : Nat)
    (hnd : questions.Nodup) :
    (assessmentSelection questions count0).length =
      min count0 questions.length := by
  unfold assessmentSelection
  dsimp only []
  apply length_fill_take
  have hsl : ∀ l : List Question, (sortByDifficulty l).length = l.length :=
    fun l => (List.perm_insertionSort _ _).length_eq
  rw [hsl]
  set sk := (groupBySkill questions).map
    (fun kqs => (kqs.1, sortByDifficulty kqs.2)) with hsk
  set FP := (sk.map (fun kqs =>
    (sliceStep (max 1 (kqs.2.length /
      max 1 (min count0 questions.length / sk.length)))
      kqs.2).take (max 1 (min count0 questions.length / sk.length)))).flatten
    with hFP
  have hperm : (((sk.map Prod.snd)).flatten).Perm questions := by
    rw [hsk]
    exact (skills_flatten_perm _).trans (groupBySkill_flatten_perm questions)
  have hnd2 : ((sk.map Prod.snd).flatten).Nodup := hperm.symm.nodup hnd
  have hsplit := length_filter_mem_split ((sk.map Prod.snd).flatten) FP
  have hle := length_filter_mem_le ((sk.map Prod.snd).flatten) FP hnd2
  have hlen := hperm.length_eq
  have hc : min count0 questions.length ≤ questions.length :=
    Nat.min_le_right _ _
  omega

/-- When at most `min count pool.length` skills exist, every skill group
contributes at least one question to the deterministic selection. -/
theorem assessmentSelection_represents (questions : List Question)
    (count0 : Nat)
    (hsc : (groupBySkill questions).length ≤ min count0 questions.length) :
    ∀ kqs ∈ groupBySkill questions, ∃ q,
      q ∈ assessmentSelection questions count0 ∧ skillKey q = kqs.1 := by
  intro kqs hkqs
  unfold assessmentSelection
  dsimp only []
  set c := min count0 questions.length with hc
  set sk := (groupBySkill questions).map
    (fun kqs => (kqs.1, sortByDifficulty kqs.2)) with hsk
  set qps := max 1 (c / sk.length) with hqps
  set FP := (sk.map (fun kqs =>
    (sliceStep (max 1 (kqs.2.length / qps)) kqs.2).take qps)).flatten with hFP
  have hentry : (kqs.1, sortByDifficulty kqs.2) ∈ sk := by
    rw [hsk]
    exact List.mem_map_of_mem _ hkqs
  have hinv := groupBySkill_inv questions kqs hkqs
  have hsort_ne : sortByDifficulty kqs.2 ≠ [] := by
    have hl : (sortByDifficulty kqs.2).length = kqs.2.length :=
      (List.perm_insertionSort _ _).length_eq
    intro h0
    rw [h0] at hl
    exact hinv.1 (List.length_eq_zero.mp hl.symm)
  set contribution := (sliceStep
    (max 1 ((sortByDifficulty kqs.2).length / qps))
    (sortByDifficulty kqs.2)).take qps with hcontrib
  have hqps_ge : 1 ≤ qps := by rw [hqps]; exact le_max_left 1 _
  have hcontrib_ne : contribution ≠ [] := by
    rw [hcontrib]
    intro h0
    rcases List.take_eq_nil_iff.mp h0 with h1 | h2
    · omega
    · exact sliceStep_ne_nil _ _ hsort_ne h2
  obtain ⟨q0, hq0⟩ := List.exists_mem_of_ne_nil _ hcontrib_ne
  have hq0_skill : skillKey q0 = kqs.1 := by
    have h1 : q0 ∈ sortByDifficulty kqs.2 :=
      sliceStepFrom_subset _ _ _ (List.take_subset _ _ hq0)
    exact hinv.2 q0 ((List.perm_insertionSort _ _).mem_iff.mp h1)
  have hq0_FP : q0 ∈ FP := by
    rw [hFP, List.mem_flatten]
    refine ⟨contribution, ?_, hq0⟩
    have := List.mem_map_of_mem (fun kqs =>
      (sliceStep (max 1 (kqs.2.length / qps)) kqs.2).take qps) hentry
    simpa [hcontrib] using this
  have hskl : sk.length = (groupBySkill questions).length := by
    rw [hsk]
    exact List.length_map _ _
  have hsc2 : sk.length ≤ c := by rw [hskl, hc]; exact hsc
  have hsk_pos : 0 < sk.length := by
    rw [List.length_pos]
    intro h0
    rw [h0] at hentry
    exact List.not_mem_nil _ hentry
  have hqps_eq : qps = c / sk.length := by
    have h1 : 1 ≤ c / sk.length := (Nat.one_le_div_iff hsk_pos).mpr hsc2
    rw [hqps]
    omega
  have hFP_le : FP.length ≤ c := by
    rw [hFP, List.length_flatten]
    have hbound : ∀ x ∈ (sk.map (fun kqs =>
        (sliceStep (max 1 (kqs.2.length / qps)) kqs.2).take qps)).map
          List.length, x ≤ qps := by
      intro x hx
      rw [List.mem_map] at hx
      obtain ⟨l, hl, rfl⟩ := hx
      rw [List.mem_map] at hl
      obtain ⟨e, he, rfl⟩ := hl
      rw [List.length_take]
      exact Nat.min_le_left _ _
    have hsum := List.sum_le_card_nsmul _ qps hbound
    rw [List.length_map, List.length_map, smul_eq_mul] at hsum
    have hmul : sk.length * qps ≤ c := by
      rw [hqps_eq, mul_comm]
      exact Nat.div_mul_le_self _ _
    omega
  refine ⟨q0, ?_, hq0_skill⟩
  by_cases hlt : FP.length < c
  · rw [if_pos hlt, List.take_append_eq_append_take,
      List.take_of_length_le hFP_le]
    exact List.mem_append_left _ hq0_FP
  · rw [if_neg hlt, List.take_of_length_le hFP_le]
    exact hq0_FP

/-- C8 (amended): assessment set sizing.  First conjunct: for every pool of
pairwise-distinct questions and every count, `select_assessment_questions`
returns exactly `min(count, len(pool))` questions (for a pool that contains
structurally equal duplicates the membership-based fill pass can fall
short — see the counterexample).  Second conjunct: every skill group is
represented at least once whenever the number of skills does not exceed the
clamped count (so both skills of a two-skill pool of 50 with count 10 are
represented).  Third conjunct: an empty pool yields the empty list. -/
theorem select_assessment_sizing :
    (∀ (questions : List Question) (count : Nat) (ds : List Nat),
       questions.Nodup →
       (select_assessment_questions questions count ds).length =
         min count questions.length) ∧
    (∀ (questions : List Question) (count : Nat) (ds : List Nat),
       (groupBySkill questions).length ≤ min count questions.length →
       ∀ kqs ∈ groupBySkill questions, ∃ q,
         q ∈ select_assessment_questions questions count ds ∧
           skillKey q = kqs.1) ∧
    (∀ (count : Nat) (ds : List Nat),
       select_assessment_questions [] count ds = []) := by
  refine ⟨?_, ?_, ?_⟩
  · intro questions count ds hnd
    unfold select_assessment_questions
    by_cases h : questions.isEmpty = true
    · rw [if_pos h, List.isEmpty_iff.mp h]
      simp
    · rw [if_neg h, (randPerm_perm ds _).length_eq]
      exact assessmentSelection_length _ _ hnd
  · intro questions count ds hsc kqs hkqs
    have hq_ne : questions.isEmpty = false := by
      rw [List.isEmpty_eq_false]
      intro h0
      rw [h0] at hkqs
      exact List.not_mem_nil _ hkqs
    unfold select_assessment_questions
    rw [hq_ne]
    simp only [Bool.false_eq_true, if_false]
    obtain ⟨q0, hq0, hsk0⟩ :=
      assessmentSelection_represents questions count hsc kqs hkqs
    exact ⟨q0, (randPerm_perm ds _).mem_iff.mpr hq0, hsk0⟩
  · intro count ds
    rfl

/-- A question of skill `A`, distinct from the duplicated one. -/
def dupQuestionA : Question := ⟨some "a1", some "A", some "medium"⟩

/-- The question of skill `B` that appears six times in the duplicate pool. -/
def dupQuestionB : Question := ⟨some "b1", some "B", some "medium"⟩

/-- A 7-question pool containing six structurally equal copies. -/
def duplicatePool : List Question :=
  [dupQuestionA, dupQuestionB, dupQuestionB, dupQuestionB, dupQuestionB,
   dupQuestionB, dupQuestionB]

/-- Counterexample to C8 as stated: on a 7-question pool holding six
structurally equal copies of one question, `select_assessment_questions`
with count 10 returns 4 questions, not `min(10, 7) = 7` — the fill pass
tests membership (`q not in selected`) and therefore skips every copy of an
already-selected duplicate. -/
theorem select_assessment_sizing_cex :
    (select_assessment_questions duplicatePool 10 []).length = 4 ∧
    min 10 duplicatePool.length = 7 := by
  constructor
  · decide
  · decide

/-- A pool of 7 pairwise-distinct questions of one skill. -/
def distinctPool : List Question :=
  [⟨some "q1", some "s", some "easy"⟩, ⟨some "q2", some "s", some "medium"⟩,
   ⟨some "q3", some "s", some "hard"⟩, ⟨some "q4", some "s", some "easy"⟩,
   ⟨some "q5", some "s", some "medium"⟩, ⟨some "q6", some "s", some "hard"⟩,
   ⟨some "q7", some "s", some "very_easy"⟩]

/-- Witness for the amended C8: the clamped count on a distinct pool of 7
with count 10 is exactly 7. -/
theorem select_assessment_sizing_witness :
    distinctPool.Nodup ∧
    (select_assessment_questions distinctPool 10 []).length =
      min 10 distinctPool.length :=
  ⟨by decide, select_assessment_sizing.1 distinctPool 10 [] (by decide)⟩

end BKT
